import Mathlib

/-!
Verification of the DVARS outlier-detection core of the `findoutlie` package
(`findoutlie/dvars_distribution.py` and `findoutlie/metrics.py`).

The Python code operates on 4D numeric arrays with exact shapes and on 1D
sequences produced from them.  We embed the arrays as a shape record together
with a total valuation function over indices, and the numeric computations in
exact rational arithmetic (`ℚ`): every numpy reduction used by the code
(`np.mean`, `np.median`, `np.percentile` with the default linear
interpolation) is reproduced exactly.  Two quantities coming from SciPy are
kept as parameters, since they are transcendental:

* `iqr0 : ℚ` stands for `ndtri(0.75) - ndtri(0.25)`, the interquartile range
  of the standard normal distribution (≈ 1.349), a fixed positive constant;
* `chi2cdf : ℚ → ℚ → ℚ` stands for `scipy.stats.chi2.cdf` applied to a
  statistic and a degrees-of-freedom value.

All theorems about the dataflow hold for every value of these parameters,
which is exactly the fidelity the specification asks for: the formulas are
stated relative to the same constants the code uses.

Rational division by zero is total (`x / 0 = 0`) in this model, whereas numpy
produces `NaN`/`Inf` with a warning; wherever a claim turns on that
distinction the theorems state the exact-arithmetic facts (which denominators
are zero at which inputs) and the prose records the floating-point reading.
-/

/-- `np.mean` of a 1D sequence, in exact arithmetic.  On the empty list the
model returns 0 (numpy would warn and produce NaN; no claim depends on the
empty case and theorems carry non-emptiness hypotheses where it matters). -/
def npMean (xs : List ℚ) : ℚ :=
  if xs.length = 0 then 0 else xs.sum / (xs.length : ℚ)

/-- Linear interpolation of a sequence `s` at the fractional index `h`:
the value `s[⌊h⌋] + (h - ⌊h⌋) * (s[⌊h⌋+1] - s[⌊h⌋])`, reading an index one
past the end as the last value read (that case only arises with a zero
fractional part, where the second read is multiplied by zero). -/
def interp (s : List ℚ) (h : ℚ) : ℚ :=
  s.getD (⌊h⌋).toNat 0 +
    (h - ((⌊h⌋).toNat : ℚ)) *
      (s.getD ((⌊h⌋).toNat + 1) (s.getD (⌊h⌋).toNat 0) - s.getD (⌊h⌋).toNat 0)

/-- `np.percentile(xs, q)` with numpy's default linear interpolation: sort
the data and interpolate at the virtual index `q/100 * (n - 1)`.  `np.median`
is `percentile 50`.  The sorted sequence is computed with insertion sort; as
a list of values it agrees with numpy's sort because a sorted permutation of
a list is unique. -/
def percentile (q : ℚ) (xs : List ℚ) : ℚ :=
  if xs.length = 0 then 0
  else interp (xs.insertionSort (· ≤ ·)) (q / 100 * ((xs.length : ℚ) - 1))

/-- A 4D numeric array of shape `(X, Y, Z, T)`: axes sizes together with a
total valuation on indices.  Only indices below the bounds are ever read by
the embedded operations. -/
structure Arr4 where
  X : ℕ
  Y : ℕ
  Z : ℕ
  T : ℕ
  val : ℕ → ℕ → ℕ → ℕ → ℚ

/-- Row-major flattening of a 3D array given by a valuation, as numpy
enumerates the entries of an `(X, Y, Z)` array. -/
def flatten3 (X Y Z : ℕ) (f : ℕ → ℕ → ℕ → ℚ) : List ℚ :=
  (List.range X).flatMap fun x =>
    (List.range Y).flatMap fun y =>
      (List.range Z).map fun z => f x y z

/-- Row-major flattening of all entries of a 4D array, as `np.mean(raw_data)`
reduces over every element. -/
def flatten4 (d : Arr4) : List ℚ :=
  (List.range d.X).flatMap fun x =>
    (List.range d.Y).flatMap fun y =>
      (List.range d.Z).flatMap fun z =>
        (List.range d.T).map fun t => d.val x y z t

/-- `voxel_differences` (dvars_distribution.py): `img_start = data[..., :-1]`,
`img_end = data[..., 1:]`, result `img_start - img_end`, i.e. entry `t` is
`data(x,y,z,t) - data(x,y,z,t+1)`, with time axis of length `T - 1`
(numpy slicing yields length 0 when `T < 2`, as truncated subtraction does). -/
def voxel_differences (data : Arr4) : Arr4 :=
  { X := data.X, Y := data.Y, Z := data.Z, T := data.T - 1,
    val := fun x y z t => data.val x y z t - data.val x y z (t + 1) }

/-- The global scale `m_R = np.mean(raw_data)` of `volume_scaling`: the mean
over all entries of the 4D array. -/
def m_R (raw : Arr4) : ℚ := npMean (flatten4 raw)

/-- The per-voxel temporal mean `M_Ri = np.mean(raw_data[x,y,z,:])` of
`volume_scaling`. -/
def M_Ri (raw : Arr4) (x y z : ℕ) : ℚ :=
  npMean ((List.range raw.T).map (raw.val x y z))

/-- `volume_scaling` (dvars_distribution.py): same shape as the input, entry
`Y_it = 100 * (Y_Rit - M_Ri) / m_R`. -/
def volume_scaling (raw : Arr4) : Arr4 :=
  { X := raw.X, Y := raw.Y, Z := raw.Z, T := raw.T,
    val := fun x y z t => 100 * (raw.val x y z t - M_Ri raw x y z) / m_R raw }

/-- `dvars_squared` (dvars_distribution.py):
`np.mean(voxel_differences(data)**2, axis=(0,1,2))`, a 1D sequence with one
entry per time transition. -/
def dvars_squared (data : Arr4) : List ℚ :=
  (List.range (data.T - 1)).map fun t =>
    npMean (flatten3 data.X data.Y data.Z fun x y z =>
      ((voxel_differences data).val x y z t) ^ 2)

/-- The temporal sequence of one voxel of the difference array, the operand of
`np.percentile(all_voxel_differences[x,y,z,:], [25, 75])` in
`voxel_iqr_variance`. -/
def voxel_diff_series (data : Arr4) (x y z : ℕ) : List ℚ :=
  (List.range (data.T - 1)).map fun t => (voxel_differences data).val x y z t

/-- `voxel_iqr_variance` (dvars_distribution.py): per voxel, `q3 - q1` of the
voxel's difference series, divided by `iqr_0 = ndtri(0.75) - ndtri(0.25)`
(here the parameter `iqr0`).  Returns the 3D array as a valuation. -/
def voxel_iqr_variance (iqr0 : ℚ) (data : Arr4) : ℕ → ℕ → ℕ → ℚ :=
  fun x y z =>
    (percentile 75 (voxel_diff_series data x y z) -
      percentile 25 (voxel_diff_series data x y z)) / iqr0

/-- `null_distribution_mean` (dvars_distribution.py):
`np.median(voxel_iqr_variance(data))` over the 3D array of per-voxel values. -/
def null_distribution_mean (iqr0 : ℚ) (data : Arr4) : ℚ :=
  percentile 50 (flatten3 data.X data.Y data.Z (voxel_iqr_variance iqr0 data))

/-- `null_distribution_variance` (dvars_distribution.py): with
`q1, q2 = np.percentile(dvars_squared(data), [25, 50])`, returns
`(q2 - q1) / hIQR_0` where `hIQR_0 = (ndtri(0.75) - ndtri(0.25)) / 2`. -/
def null_distribution_variance (iqr0 : ℚ) (data : Arr4) : ℚ :=
  (percentile 50 (dvars_squared data) - percentile 25 (dvars_squared data)) /
    (iqr0 / 2)

/-- `dvars_chisquared_stat` (dvars_distribution.py): returns the pair
`(2 * null_mean * dvars_squared / null_variance, 2 * null_mean^2 / null_variance)`,
the per-transition statistics and the shared scalar degrees of freedom. -/
def dvars_chisquared_stat (iqr0 : ℚ) (data : Arr4) : List ℚ × ℚ :=
  ((dvars_squared data).map fun v =>
      2 * null_distribution_mean iqr0 data * v / null_distribution_variance iqr0 data,
    2 * null_distribution_mean iqr0 data ^ 2 / null_distribution_variance iqr0 data)

/-- `dvars_pvals` (dvars_distribution.py): scale the data, compute the
chi-squared statistics and degrees of freedom, set
`p_vals = 1 - chi2.cdf(stats, dof)`, multiply by `len(p_vals)` (Bonferroni),
and return the adjusted p-values with the mask `p_vals <= alpha`.
`chi2cdf` is the parameter standing for `scipy.stats.chi2.cdf`. -/
def dvars_pvals (iqr0 : ℚ) (chi2cdf : ℚ → ℚ → ℚ) (raw : Arr4) (alpha : ℚ) :
    List ℚ × List Bool :=
  let data := volume_scaling raw
  let stats := (dvars_chisquared_stat iqr0 data).1
  let dof := (dvars_chisquared_stat iqr0 data).2
  let p0 := stats.map fun s => 1 - chi2cdf s dof
  let pAdj := p0.map fun p => p * (p0.length : ℚ)
  (pAdj, pAdj.map fun p => decide (p ≤ alpha))

/-- An n-dimensional array as `img.get_fdata()` yields one: a shape list and
a valuation on index lists. -/
structure NdArr where
  shape : List ℕ
  val : List ℕ → ℚ

/-- Reading a 4D `NdArr` as an `Arr4` (the shape list has length 4 whenever
this is used). -/
def NdArr.toArr4 (a : NdArr) : Arr4 :=
  { X := a.shape.getD 0 0, Y := a.shape.getD 1 0, Z := a.shape.getD 2 0,
    T := a.shape.getD 3 0,
    val := fun x y z t => a.val [x, y, z, t] }

/-- The argument passed to `metrics.dvars`: either a `nib.Nifti1Image`
(carrying the array `get_fdata()` returns) or a value of any other type. -/
inductive ImgInput where
  | nifti1 (data : NdArr) : ImgInput
  | other : ImgInput

/-- The two exception types `metrics.dvars` raises: `TypeError` for a
non-Nifti1Image argument, `ValueError` for a non-4D data array. -/
inductive MetricsError where
  | typeError : MetricsError
  | valueError : MetricsError
deriving DecidableEq

/-- The computation of `dvars` (metrics.py) after validation:
`np.sqrt(np.mean((img_start - img_end) ** 2, axis=(0,1,2)))` with
`img_start = data[..., :-1]` and `img_end = data[..., 1:]`. -/
noncomputable def metrics_dvars (data : Arr4) : List ℝ :=
  (List.range (data.T - 1)).map fun t =>
    Real.sqrt ((npMean (flatten3 data.X data.Y data.Z fun x y z =>
      (data.val x y z t - data.val x y z (t + 1)) ^ 2) : ℚ) : ℝ)

/-- `dvars` (metrics.py) with its validation: `TypeError` unless the argument
is a `Nifti1Image`, then `ValueError` unless `len(data.shape) == 4`, and only
then the DVARS computation. -/
noncomputable def metrics_dvars_checked (img : ImgInput) :
    Except MetricsError (List ℝ) :=
  match img with
  | ImgInput.other => Except.error MetricsError.typeError
  | ImgInput.nifti1 a =>
      if a.shape.length ≠ 4 then Except.error MetricsError.valueError
      else Except.ok (metrics_dvars a.toArr4)

/-- The specification's difference series (spec §3, §4.1): entry `(x,y,z,t)`
is `value(x,y,z,t+1) - value(x,y,z,t)`. -/
def spec_voxel_differences (data : Arr4) : Arr4 :=
  { X := data.X, Y := data.Y, Z := data.Z, T := data.T - 1,
    val := fun x y z t => data.val x y z (t + 1) - data.val x y z t }

/-- One voxel's temporal sequence of the specification's difference series. -/
def spec_voxel_diff_series (data : Arr4) (x y z : ℕ) : List ℚ :=
  (List.range (data.T - 1)).map fun t => (spec_voxel_differences data).val x y z t

/-- The specification's `mu_0` (spec §4.3 steps 1-2): the median, across all
voxels, of the per-voxel interquartile range `Q3 - Q1` of that voxel's
difference values, divided by `IQR_0` (the parameter `iqr0`). -/
def spec_null_distribution_mean (iqr0 : ℚ) (data : Arr4) : ℚ :=
  percentile 50 (flatten3 data.X data.Y data.Z fun x y z =>
    (percentile 75 (spec_voxel_diff_series data x y z) -
      percentile 25 (spec_voxel_diff_series data x y z)) / iqr0)

/-- The specification's squared-DVARS series (spec §3, §4.4): the spatial
mean of the squared entries of the specification's difference series. -/
def spec_dvars_squared (data : Arr4) : List ℚ :=
  (List.range (data.T - 1)).map fun t =>
    npMean (flatten3 data.X data.Y data.Z fun x y z =>
      ((spec_voxel_differences data).val x y z t) ^ 2)

/-- The specification's `variance_0` (spec §4.3 step 3): the half
interquartile range `median - Q1` of the squared-DVARS series divided by
`hIQR_0 = IQR_0 / 2`. -/
def spec_null_distribution_variance (iqr0 : ℚ) (data : Arr4) : ℚ :=
  (percentile 50 (spec_dvars_squared data) -
    percentile 25 (spec_dvars_squared data)) / (iqr0 / 2)

/-- A 4D array of shape `(X, Y, Z, T)` with every entry equal to `c`. -/
def constArr (X Y Z T : ℕ) (c : ℚ) : Arr4 :=
  { X := X, Y := Y, Z := Z, T := T, val := fun _ _ _ _ => c }

/-- A concrete `(1,1,1,2)` array whose single voxel holds the values `0, 1`:
the smallest input on which the sign of a voxel difference is observable. -/
def rampArr : Arr4 :=
  { X := 1, Y := 1, Z := 1, T := 2, val := fun _ _ _ t => (t : ℚ) }

theorem getD_map_range {α : Type} (n : ℕ) (f : ℕ → α) (t : ℕ) (d : α) (h : t < n) :
    ((List.range n).map f).getD t d = f t := by
  rw [List.getD_eq_getElem?_getD, List.getElem?_map, List.getElem?_range h]
  rfl

theorem getD_map_of_lt {α β : Type} (f : α → β) (l : List α) (t : ℕ) (d : β) (d0 : α)
    (h : t < l.length) :
    (l.map f).getD t d = f (l.getD t d0) := by
  rw [List.getD_eq_getElem?_getD, List.getElem?_map, List.getElem?_eq_getElem h,
    List.getD_eq_getElem?_getD, List.getElem?_eq_getElem h]
  rfl

theorem getD_all_zero {l : List ℚ} (h : ∀ x ∈ l, x = 0) (i : ℕ) : l.getD i 0 = 0 := by
  induction l generalizing i with
  | nil => simp
  | cons a as ih =>
    cases i with
    | zero => exact h a (List.mem_cons_self a as)
    | succ j => exact ih (fun x hx => h x (List.mem_cons_of_mem a hx)) j

theorem npMean_eq {l : List ℚ} (hl : l.length ≠ 0) :
    npMean l = l.sum / (l.length : ℚ) := if_neg hl

theorem npMean_all_zero {l : List ℚ} (h : ∀ x ∈ l, x = 0) : npMean l = 0 := by
  unfold npMean
  rw [List.sum_eq_zero h]
  simp

theorem npMean_nonneg {l : List ℚ} (h : ∀ x ∈ l, 0 ≤ x) : 0 ≤ npMean l := by
  unfold npMean
  split
  · exact le_refl 0
  · exact div_nonneg (List.sum_nonneg h) (Nat.cast_nonneg _)

theorem mem_sort_iff {l : List ℚ} {a : ℚ} :
    a ∈ l.insertionSort (· ≤ ·) ↔ a ∈ l := (List.perm_insertionSort _ l).mem_iff

theorem percentile_all_zero {l : List ℚ} (q : ℚ) (h : ∀ x ∈ l, x = 0) :
    percentile q l = 0 := by
  unfold percentile
  split
  · rfl
  · have hs : ∀ x ∈ l.insertionSort (· ≤ ·), x = 0 := fun x hx => h x (mem_sort_iff.mp hx)
    unfold interp
    rw [getD_all_zero hs, getD_all_zero hs]
    ring

theorem mem_flatten3 {X Y Z : ℕ} {f : ℕ → ℕ → ℕ → ℚ} {v : ℚ}
    (h : v ∈ flatten3 X Y Z f) :
    ∃ x y z, x < X ∧ y < Y ∧ z < Z ∧ v = f x y z := by
  simp only [flatten3, List.mem_flatMap, List.mem_map, List.mem_range] at h
  obtain ⟨x, hx, y, hy, z, hz, hv⟩ := h
  exact ⟨x, y, z, hx, hy, hz, hv.symm⟩

theorem voxel_diff_series_const {A : Arr4} {c : ℚ} (hA : ∀ x y z t, A.val x y z t = c)
    (x y z : ℕ) : ∀ v ∈ voxel_diff_series A x y z, v = 0 := by
  intro v hv
  unfold voxel_diff_series at hv
  obtain ⟨t, _, hv⟩ := List.mem_map.mp hv
  rw [← hv]
  show A.val x y z t - A.val x y z (t + 1) = 0
  rw [hA, hA, sub_self]

theorem dvars_squared_const {A : Arr4} {c : ℚ} (hA : ∀ x y z t, A.val x y z t = c) :
    ∀ v ∈ dvars_squared A, v = 0 := by
  intro v hv
  unfold dvars_squared at hv
  obtain ⟨t, _, hv⟩ := List.mem_map.mp hv
  rw [← hv]
  apply npMean_all_zero
  intro w hw
  obtain ⟨x, y, z, _, _, _, hw⟩ := mem_flatten3 hw
  rw [hw]
  show (A.val x y z t - A.val x y z (t + 1)) ^ 2 = 0
  rw [hA, hA, sub_self]
  ring

theorem null_distribution_mean_const (iqr0 : ℚ) {A : Arr4} {c : ℚ}
    (hA : ∀ x y z t, A.val x y z t = c) :
    null_distribution_mean iqr0 A = 0 := by
  unfold null_distribution_mean
  apply percentile_all_zero
  intro v hv
  obtain ⟨x, y, z, _, _, _, hv⟩ := mem_flatten3 hv
  rw [hv]
  unfold voxel_iqr_variance
  rw [percentile_all_zero 75 (voxel_diff_series_const hA x y z),
    percentile_all_zero 25 (voxel_diff_series_const hA x y z), sub_self, zero_div]

theorem null_distribution_variance_const (iqr0 : ℚ) {A : Arr4} {c : ℚ}
    (hA : ∀ x y z t, A.val x y z t = c) :
    null_distribution_variance iqr0 A = 0 := by
  unfold null_distribution_variance
  rw [percentile_all_zero 50 (dvars_squared_const hA),
    percentile_all_zero 25 (dvars_squared_const hA), sub_self, zero_div]

theorem chisq_stats_const (iqr0 : ℚ) {A : Arr4} {c : ℚ}
    (hA : ∀ x y z t, A.val x y z t = c) (t : ℕ) :
    (dvars_chisquared_stat iqr0 A).1.getD t 0 = 0 := by
  apply getD_all_zero
  intro v hv
  unfold dvars_chisquared_stat at hv
  obtain ⟨w, hw, hv⟩ := List.mem_map.mp hv
  rw [← hv, dvars_squared_const hA w hw]
  ring

theorem npMean_const (n : ℕ) (c : ℚ) (hn : n ≠ 0) :
    npMean ((List.range n).map fun _ => c) = c := by
  have h1 : ((List.range n).map fun _ => c) = List.replicate n c := by
    simp [List.map_const]
  rw [h1, npMean_eq (by simpa using hn), List.sum_replicate, List.length_replicate,
    nsmul_eq_mul]
  exact mul_div_cancel_left₀ c (Nat.cast_ne_zero.mpr hn)

theorem volume_scaling_const (X Y Z T : ℕ) (c : ℚ) (hT : T ≠ 0) :
    ∀ x y z t, (volume_scaling (constArr X Y Z T c)).val x y z t = 0 := by
  intro x y z t
  have hM : M_Ri (constArr X Y Z T c) x y z = c := npMean_const T c hT
  show 100 * ((constArr X Y Z T c).val x y z t - M_Ri (constArr X Y Z T c) x y z) /
      m_R (constArr X Y Z T c) = 0
  rw [show (constArr X Y Z T c).val x y z t = c from rfl, hM, sub_self, mul_zero, zero_div]

/-- C1: the voxel difference engine is claimed to return, at `(x,y,z,t)`, the
value `input(x,y,z,t+1) - input(x,y,z,t)`.  The code computes
`img_start - img_end = input(x,y,z,t) - input(x,y,z,t+1)`: on the
single-voxel series `0, 1` (`rampArr`) the entry at `t = 0` is `-1`, the
negation of the claimed value `1` (the function's own docstring also states
`Y_i(t+1)-Y_i(t)`).  The shape part of the claim holds: the time axis shrinks
by one. -/
theorem C1_voxel_differences_sign :
    (voxel_differences rampArr).T = 1 ∧
    (voxel_differences rampArr).val 0 0 0 0 = -1 ∧
    rampArr.val 0 0 0 1 - rampArr.val 0 0 0 0 = 1 ∧
    (voxel_differences rampArr).val 0 0 0 0 ≠
      rampArr.val 0 0 0 1 - rampArr.val 0 0 0 0 := by
  have e0 : rampArr.val 0 0 0 0 = 0 := by norm_num [rampArr]
  have e1 : rampArr.val 0 0 0 1 = 1 := by norm_num [rampArr]
  have ed : (voxel_differences rampArr).val 0 0 0 0 = -1 := by
    show rampArr.val 0 0 0 0 - rampArr.val 0 0 0 (0 + 1) = -1
    rw [e0, show (0 + 1 : ℕ) = 1 from rfl, e1]
    norm_num
  refine ⟨rfl, ed, by rw [e0, e1]; norm_num, by rw [ed, e0, e1]; norm_num⟩

/-- C8 counterexample: on the shape `(1,1,1,1)` constant array (time
dimension `T = 1 < 2`) the voxel difference engine raises no domain error: it
returns a result, an array of shape `(1,1,1,0)`, and the squared-DVARS series
is the empty sequence. -/
theorem C8_counterexample :
    (voxel_differences (constArr 1 1 1 1 7)).T = 0 ∧
    dvars_squared (constArr 1 1 1 1 7) = [] := ⟨rfl, rfl⟩

/-- C8 (amended): for every input with `T < 2` the voxel difference engine
returns normally: the spatial shape is unchanged, the time axis has length 0
(numpy slicing clamps), and the squared-DVARS series is empty; no error is
raised before or instead of this result. -/
theorem C8_short_series (data : Arr4) (h : data.T < 2) :
    (voxel_differences data).T = 0 ∧ (voxel_differences data).X = data.X ∧
    (voxel_differences data).Y = data.Y ∧ (voxel_differences data).Z = data.Z ∧
    dvars_squared data = [] := by
  have h0 : data.T - 1 = 0 := by omega
  refine ⟨h0, rfl, rfl, rfl, ?_⟩
  unfold dvars_squared
  rw [h0]
  rfl

theorem C8_short_series_witness :
    (constArr 2 2 2 1 5).T < 2 ∧
    ((voxel_differences (constArr 2 2 2 1 5)).T = 0 ∧
      (voxel_differences (constArr 2 2 2 1 5)).X = (constArr 2 2 2 1 5).X ∧
      (voxel_differences (constArr 2 2 2 1 5)).Y = (constArr 2 2 2 1 5).Y ∧
      (voxel_differences (constArr 2 2 2 1 5)).Z = (constArr 2 2 2 1 5).Z ∧
      dvars_squared (constArr 2 2 2 1 5) = []) :=
  ⟨by decide, C8_short_series (constArr 2 2 2 1 5) (by decide)⟩

/-- C10: `metrics.dvars` validates its input before computing: any argument
that is not a `Nifti1Image` yields `TypeError`, and a `Nifti1Image` whose
loaded data array is not 4-dimensional yields `ValueError`; in both cases the
result is the error alone, with no partial DVARS sequence. -/
theorem C10_dvars_validation :
    metrics_dvars_checked ImgInput.other = Except.error MetricsError.typeError ∧
    ∀ a : NdArr, a.shape.length ≠ 4 →
      metrics_dvars_checked (ImgInput.nifti1 a) =
        Except.error MetricsError.valueError := by
  refine ⟨rfl, fun a ha => ?_⟩
  show (if a.shape.length ≠ 4 then Except.error MetricsError.valueError
      else Except.ok (metrics_dvars a.toArr4)) = Except.error MetricsError.valueError
  rw [if_pos ha]

theorem C10_dvars_validation_witness :
    (([2, 3] : List ℕ).length ≠ 4) ∧
    metrics_dvars_checked (ImgInput.nifti1 { shape := [2, 3], val := fun _ => 0 }) =
      Except.error MetricsError.valueError :=
  ⟨by decide, C10_dvars_validation.2 { shape := [2, 3], val := fun _ => 0 } (by decide)⟩

/-- C9: for every 4D input and every in-range time transition `t`, the
squared-DVARS value at `t` is nonnegative, and the DVARS value computed by
the metrics module equals the square root of that squared-DVARS value
exactly. -/
theorem C9_dvars_sqrt (data : Arr4) (t : ℕ) (h : t < data.T - 1) :
    0 ≤ (dvars_squared data).getD t 0 ∧
    (metrics_dvars data).getD t 0 =
      Real.sqrt (((dvars_squared data).getD t 0 : ℚ) : ℝ) := by
  have h1 : (dvars_squared data).getD t 0 =
      npMean (flatten3 data.X data.Y data.Z fun x y z =>
        ((voxel_differences data).val x y z t) ^ 2) := by
    unfold dvars_squared
    exact getD_map_range _ _ _ _ h
  constructor
  · rw [h1]
    apply npMean_nonneg
    intro v hv
    obtain ⟨x, y, z, _, _, _, hv⟩ := mem_flatten3 hv
    rw [hv]
    exact sq_nonneg _
  · rw [h1]
    unfold metrics_dvars
    rw [getD_map_range _ _ _ _ h]
    rfl

theorem C9_dvars_sqrt_witness :
    (0 < (constArr 1 1 1 2 3).T - 1) ∧
    (0 ≤ (dvars_squared (constArr 1 1 1 2 3)).getD 0 0 ∧
      (metrics_dvars (constArr 1 1 1 2 3)).getD 0 0 =
        Real.sqrt (((dvars_squared (constArr 1 1 1 2 3)).getD 0 0 : ℚ) : ℝ)) :=
  ⟨by decide, C9_dvars_sqrt (constArr 1 1 1 2 3) 0 (by decide)⟩

/-- C3: `dvars_chisquared_stat` returns, at every in-range transition `t`,
the statistic `2 * mu_0 * squaredDVARS(t) / variance_0`, and a single scalar
degrees of freedom `2 * mu_0 ^ 2 / variance_0` shared by all transitions,
where `mu_0` and `variance_0` are the estimated null-distribution
parameters; the statistic sequence has one entry per transition. -/
theorem C3_chisquared_stat (iqr0 : ℚ) (data : Arr4) (t : ℕ) (h : t < data.T - 1) :
    (dvars_chisquared_stat iqr0 data).1.getD t 0 =
      2 * null_distribution_mean iqr0 data * (dvars_squared data).getD t 0 /
        null_distribution_variance iqr0 data ∧
    (dvars_chisquared_stat iqr0 data).2 =
      2 * null_distribution_mean iqr0 data ^ 2 / null_distribution_variance iqr0 data ∧
    (dvars_chisquared_stat iqr0 data).1.length = data.T - 1 := by
  have hlen : (dvars_squared data).length = data.T - 1 := by
    unfold dvars_squared
    rw [List.length_map, List.length_range]
  unfold dvars_chisquared_stat
  dsimp only
  refine ⟨?_, rfl, ?_⟩
  · rw [getD_map_of_lt _ _ _ _ 0 (show t < (dvars_squared data).length by
      rw [hlen]; exact h)]
  · rw [List.length_map, hlen]

theorem C3_chisquared_stat_witness :
    (0 < (constArr 1 1 1 2 4).T - 1) ∧
    ((dvars_chisquared_stat 1 (constArr 1 1 1 2 4)).1.getD 0 0 =
        2 * null_distribution_mean 1 (constArr 1 1 1 2 4) *
          (dvars_squared (constArr 1 1 1 2 4)).getD 0 0 /
          null_distribution_variance 1 (constArr 1 1 1 2 4) ∧
      (dvars_chisquared_stat 1 (constArr 1 1 1 2 4)).2 =
        2 * null_distribution_mean 1 (constArr 1 1 1 2 4) ^ 2 /
          null_distribution_variance 1 (constArr 1 1 1 2 4) ∧
      (dvars_chisquared_stat 1 (constArr 1 1 1 2 4)).1.length =
        (constArr 1 1 1 2 4).T - 1) :=
  ⟨by decide, C3_chisquared_stat 1 (constArr 1 1 1 2 4) 0 (by decide)⟩

theorem sum_map_affine (l : List ℚ) (a b : ℚ) :
    (l.map fun x => x * a + b).sum = l.sum * a + (l.length : ℚ) * b := by
  induction l with
  | nil => simp
  | cons c cs ih =>
    simp only [List.map_cons, List.sum_cons, ih, List.length_cons]
    push_cast
    ring

theorem npMean_center (l : List ℚ) (c : ℚ) (hl : l.length ≠ 0) :
    npMean (l.map fun x => 100 * (x - npMean l) / c) = 0 := by
  have hn : (l.length : ℚ) ≠ 0 := Nat.cast_ne_zero.mpr hl
  have h1 : (l.map fun x => 100 * (x - npMean l) / c) =
      l.map fun x => x * (100 / c) + -(npMean l) * (100 / c) :=
    List.map_congr_left fun x _ => by ring
  have h3 : (l.length : ℚ) * (l.sum / (l.length : ℚ)) = l.sum := by
    field_simp
  have h2 : (l.length : ℚ) * (-(l.sum / (l.length : ℚ)) * (100 / c)) =
      -(l.sum * (100 / c)) := by
    calc (l.length : ℚ) * (-(l.sum / (l.length : ℚ)) * (100 / c))
        = -((l.length : ℚ) * (l.sum / (l.length : ℚ)) * (100 / c)) := by ring
      _ = -(l.sum * (100 / c)) := by rw [h3]
  rw [h1, npMean_eq (by simpa using hl), List.length_map, sum_map_affine,
    npMean_eq hl, h2, add_neg_cancel, zero_div]

/-- C7: `volume_scaling` preserves the input's shape, every output entry
equals `100 * (raw(x,y,z,t) - M(x,y,z)) / m_R` with `M` the voxel's temporal
mean and `m_R` the global scale, and — in exact arithmetic, for a nonzero
`m_R` and a nonempty time axis — each voxel's temporal mean of the
normalized series is 0. -/
theorem C7_volume_scaling (raw : Arr4) (_hm : m_R raw ≠ 0) (hT : raw.T ≠ 0) :
    (volume_scaling raw).X = raw.X ∧ (volume_scaling raw).Y = raw.Y ∧
    (volume_scaling raw).Z = raw.Z ∧ (volume_scaling raw).T = raw.T ∧
    (∀ x y z t, (volume_scaling raw).val x y z t =
      100 * (raw.val x y z t - M_Ri raw x y z) / m_R raw) ∧
    ∀ x y z, npMean ((List.range raw.T).map ((volume_scaling raw).val x y z)) = 0 := by
  refine ⟨rfl, rfl, rfl, rfl, fun x y z t => rfl, fun x y z => ?_⟩
  have h1 : (List.range raw.T).map ((volume_scaling raw).val x y z) =
      ((List.range raw.T).map (raw.val x y z)).map
        fun v => 100 * (v - npMean ((List.range raw.T).map (raw.val x y z))) / m_R raw := by
    rw [List.map_map]
    rfl
  rw [h1]
  exact npMean_center _ _ (by simpa using hT)

theorem C7_volume_scaling_witness :
    (m_R (constArr 1 1 1 2 1) ≠ 0 ∧ (constArr 1 1 1 2 1).T ≠ 0) ∧
    ((volume_scaling (constArr 1 1 1 2 1)).X = (constArr 1 1 1 2 1).X ∧
      (volume_scaling (constArr 1 1 1 2 1)).Y = (constArr 1 1 1 2 1).Y ∧
      (volume_scaling (constArr 1 1 1 2 1)).Z = (constArr 1 1 1 2 1).Z ∧
      (volume_scaling (constArr 1 1 1 2 1)).T = (constArr 1 1 1 2 1).T ∧
      (∀ x y z t, (volume_scaling (constArr 1 1 1 2 1)).val x y z t =
        100 * ((constArr 1 1 1 2 1).val x y z t -
          M_Ri (constArr 1 1 1 2 1) x y z) / m_R (constArr 1 1 1 2 1)) ∧
      ∀ x y z, npMean ((List.range (constArr 1 1 1 2 1).T).map
        ((volume_scaling (constArr 1 1 1 2 1)).val x y z)) = 0) :=
  ⟨⟨by norm_num [m_R, flatten4, npMean, constArr, List.range_succ], by decide⟩,
    C7_volume_scaling (constArr 1 1 1 2 1)
      (by norm_num [m_R, flatten4, npMean, constArr, List.range_succ]) (by decide)⟩

theorem getD_map_decide_le (l : List ℚ) (alpha : ℚ) (t : ℕ) (h : t < l.length) :
    ((l.map fun p => decide (p ≤ alpha)).getD t false = true) ↔ l.getD t 0 ≤ alpha := by
  rw [getD_map_of_lt _ _ _ _ 0 h]
  simp only [decide_eq_true_eq]

/-- C6: `dvars_pvals` returns one adjusted p-value per time transition,
computed as `(1 - chi2cdf(statistic(t), dof)) * N` where `N` is the length of
the p-value sequence (`T - 1`), and a rejection flag that holds exactly when
the adjusted p-value is at most `alpha`. -/
theorem C6_dvars_pvals (iqr0 : ℚ) (chi2cdf : ℚ → ℚ → ℚ) (raw : Arr4) (alpha : ℚ)
    (t : ℕ) (h : t < raw.T - 1) :
    (dvars_pvals iqr0 chi2cdf raw alpha).1.length = raw.T - 1 ∧
    (dvars_pvals iqr0 chi2cdf raw alpha).1.getD t 0 =
      (1 - chi2cdf ((dvars_chisquared_stat iqr0 (volume_scaling raw)).1.getD t 0)
          (dvars_chisquared_stat iqr0 (volume_scaling raw)).2) * ((raw.T - 1 : ℕ) : ℚ) ∧
    ((dvars_pvals iqr0 chi2cdf raw alpha).2.getD t false = true ↔
      (dvars_pvals iqr0 chi2cdf raw alpha).1.getD t 0 ≤ alpha) := by
  have hslen : (dvars_chisquared_stat iqr0 (volume_scaling raw)).1.length = raw.T - 1 := by
    show ((dvars_squared (volume_scaling raw)).map _).length = _
    rw [List.length_map]
    show ((List.range ((volume_scaling raw).T - 1)).map _).length = _
    rw [List.length_map, List.length_range]
    rfl
  have hb0 : t < (dvars_chisquared_stat iqr0 (volume_scaling raw)).1.length := by
    rw [hslen]
    exact h
  have hb1 : t < ((dvars_chisquared_stat iqr0 (volume_scaling raw)).1.map
      fun s => 1 - chi2cdf s (dvars_chisquared_stat iqr0 (volume_scaling raw)).2).length := by
    rw [List.length_map]
    exact hb0
  simp only [dvars_pvals]
  refine ⟨?_, ?_, ?_⟩
  · rw [List.length_map, List.length_map, hslen]
  · rw [getD_map_of_lt _ _ _ _ 0 hb1, getD_map_of_lt _ _ _ _ 0 hb0,
      List.length_map, hslen]
  · exact getD_map_decide_le _ alpha t (by rw [List.length_map]; exact hb1)

theorem C6_dvars_pvals_witness :
    (0 < (constArr 1 1 1 2 1).T - 1) ∧
    ((dvars_pvals 1 (fun _ _ => 0) (constArr 1 1 1 2 1) (1/20)).1.length =
        (constArr 1 1 1 2 1).T - 1 ∧
      (dvars_pvals 1 (fun _ _ => 0) (constArr 1 1 1 2 1) (1/20)).1.getD 0 0 =
        (1 - (fun _ _ => (0:ℚ))
            ((dvars_chisquared_stat 1 (volume_scaling (constArr 1 1 1 2 1))).1.getD 0 0)
            (dvars_chisquared_stat 1 (volume_scaling (constArr 1 1 1 2 1))).2) *
          (((constArr 1 1 1 2 1).T - 1 : ℕ) : ℚ) ∧
      ((dvars_pvals 1 (fun _ _ => 0) (constArr 1 1 1 2 1) (1/20)).2.getD 0 false = true ↔
        (dvars_pvals 1 (fun _ _ => 0) (constArr 1 1 1 2 1) (1/20)).1.getD 0 0 ≤ 1/20)) :=
  ⟨by decide, C6_dvars_pvals 1 (fun _ _ => 0) (constArr 1 1 1 2 1) (1/20) 0 (by decide)⟩

/-- C2 (amended): the module raises no degenerate-distribution error — it has
no error path at all.  For every constant 4D array the robust null mean and
the robust null variance equal 0, both before and after intensity
normalization (a constant array normalizes to the all-zero array), and the
chi-squared statistics are computed by dividing by that zero variance: under
the exact-arithmetic `x / 0 = 0` convention every statistic is 0, whereas
numpy's floating point produces NaN from the `0/0` — in neither reading is an
explicit error raised. -/
theorem C2_degenerate_no_error (iqr0 : ℚ) (X Y Z T : ℕ) (c : ℚ) (hT : T ≠ 0) :
    null_distribution_mean iqr0 (constArr X Y Z T c) = 0 ∧
    null_distribution_variance iqr0 (constArr X Y Z T c) = 0 ∧
    null_distribution_mean iqr0 (volume_scaling (constArr X Y Z T c)) = 0 ∧
    null_distribution_variance iqr0 (volume_scaling (constArr X Y Z T c)) = 0 ∧
    ∀ t, (dvars_chisquared_stat iqr0 (volume_scaling (constArr X Y Z T c))).1.getD t 0 = 0 := by
  have hc : ∀ x y z t, (constArr X Y Z T c).val x y z t = c := fun _ _ _ _ => rfl
  have hs := volume_scaling_const X Y Z T c hT
  exact ⟨null_distribution_mean_const iqr0 hc, null_distribution_variance_const iqr0 hc,
    null_distribution_mean_const iqr0 hs, null_distribution_variance_const iqr0 hs,
    fun t => chisq_stats_const iqr0 hs t⟩

theorem C2_degenerate_no_error_witness :
    ((2 : ℕ) ≠ 0) ∧
    (null_distribution_mean (27/20) (constArr 1 1 1 2 1) = 0 ∧
      null_distribution_variance (27/20) (constArr 1 1 1 2 1) = 0 ∧
      null_distribution_mean (27/20) (volume_scaling (constArr 1 1 1 2 1)) = 0 ∧
      null_distribution_variance (27/20) (volume_scaling (constArr 1 1 1 2 1)) = 0 ∧
      ∀ t, (dvars_chisquared_stat (27/20)
        (volume_scaling (constArr 1 1 1 2 1))).1.getD t 0 = 0) :=
  ⟨by decide, C2_degenerate_no_error (27/20) 1 1 1 2 1 (by decide)⟩

/-- C2 counterexample: on the constant array of shape `(1,1,1,3)` with value
1 the robust null variance of the normalized data is 0 — the degenerate case
the claim says must raise an explicit error — yet the pipeline completes and
returns a normal result: with the constant-0 stand-in for the chi-squared CDF
the adjusted p-values are `[2, 2]` and both rejection flags are false at
`alpha = 1/20`.  No error value exists anywhere in the module; the division
by the zero variance is performed (0 in this exact model, NaN in numpy). -/
theorem C2_counterexample :
    null_distribution_variance (27/20) (volume_scaling (constArr 1 1 1 3 1)) = 0 ∧
    dvars_pvals (27/20) (fun _ _ => 0) (constArr 1 1 1 3 1) (1/20) =
      ([2, 2], [false, false]) := by
  constructor
  · exact null_distribution_variance_const (27/20)
      (volume_scaling_const 1 1 1 3 1 (by decide))
  · norm_num [dvars_pvals, dvars_chisquared_stat, dvars_squared,
      null_distribution_mean, null_distribution_variance, voxel_iqr_variance,
      voxel_diff_series, voxel_differences, volume_scaling, M_Ri, m_R,
      flatten3, flatten4, npMean, percentile, interp, constArr,
      List.range_succ, List.insertionSort, List.orderedInsert]

theorem getD_reverse_map_neg (s : List ℚ) (i : ℕ) (d d2 : ℚ) (h : i < s.length) :
    (s.reverse.map fun x => -x).getD i d = -(s.getD (s.length - 1 - i) d2) := by
  have h2 : s.length - 1 - i < s.length := by omega
  rw [List.getD_eq_getElem?_getD, List.getElem?_map, List.getElem?_reverse h,
    List.getElem?_eq_getElem h2, List.getD_eq_getElem?_getD,
    List.getElem?_eq_getElem h2]
  rfl

theorem getD_def_irrel (l : List ℚ) (i : ℕ) (d d2 : ℚ) (h : i < l.length) :
    l.getD i d = l.getD i d2 := by
  rw [List.getD_eq_getElem?_getD, List.getD_eq_getElem?_getD,
    List.getElem?_eq_getElem h]
  rfl

theorem sort_map_neg (l : List ℚ) :
    (l.map fun x => -x).insertionSort (· ≤ ·) =
      ((l.insertionSort (· ≤ ·)).reverse).map fun x => -x := by
  have hperm : List.Perm ((l.map fun x => -x).insertionSort (· ≤ ·))
      (((l.insertionSort (· ≤ ·)).reverse).map fun x => -x) := by
    refine (List.perm_insertionSort _ _).trans ?_
    refine (List.Perm.map _ ?_).symm
    exact (List.reverse_perm _).trans (List.perm_insertionSort _ l)
  refine List.eq_of_perm_of_sorted hperm (List.sorted_insertionSort _ _) ?_
  have hs : (l.insertionSort (· ≤ ·)).Sorted (· ≤ ·) := List.sorted_insertionSort _ l
  show ((l.insertionSort (· ≤ ·)).reverse.map fun x => -x).Pairwise (· ≤ ·)
  rw [List.pairwise_map, List.pairwise_reverse]
  exact hs.imp fun hab => neg_le_neg hab

theorem interp_reverse_neg (s : List ℚ) (h : ℚ) (h0 : 0 ≤ h)
    (h1 : h ≤ (s.length : ℚ) - 1) :
    interp (s.reverse.map fun x => -x) h = -interp s ((s.length : ℚ) - 1 - h) := by
  have hn1 : 1 ≤ s.length := by
    by_contra hc
    push_neg at hc
    have h2 : s.length = 0 := by omega
    rw [h2] at h1
    norm_num at h1
    linarith
  have hcast1 : ((s.length - 1 : ℕ) : ℚ) = (s.length : ℚ) - 1 := by
    push_cast [Nat.cast_sub hn1]
    ring
  have hk0 : (0 : ℤ) ≤ ⌊h⌋ := Int.floor_nonneg.mpr h0
  obtain ⟨k, hkZ⟩ : ∃ k : ℕ, (k : ℤ) = ⌊h⌋ := ⟨(⌊h⌋).toNat, Int.toNat_of_nonneg hk0⟩
  have hkN : (⌊h⌋).toNat = k := by
    rw [← hkZ, Int.toNat_natCast]
  have hkQ : ((k : ℕ) : ℚ) = ((⌊h⌋ : ℤ) : ℚ) := by
    exact_mod_cast hkZ
  have hkle : ((⌊h⌋ : ℤ) : ℚ) ≤ h := Int.floor_le h
  have hhlt : h < ((⌊h⌋ : ℤ) : ℚ) + 1 := Int.lt_floor_add_one h
  have hkn : k ≤ s.length - 1 := by
    have h4 : ((k : ℕ) : ℚ) ≤ ((s.length - 1 : ℕ) : ℚ) := by
      rw [hcast1, hkQ]
      exact hkle.trans h1
    exact_mod_cast h4
  have hklt : k < s.length := by omega
  by_cases hf : ((⌊h⌋ : ℤ) : ℚ) = h
  · have hkQh : ((k : ℕ) : ℚ) = h := hkQ.trans hf
    have e1 : (s.length : ℚ) - 1 - h = ((s.length - 1 - k : ℕ) : ℚ) := by
      have e0 : ((s.length - 1 - k : ℕ) : ℚ) = (s.length : ℚ) - 1 - k := by
        push_cast [Nat.cast_sub hn1, Nat.cast_sub hkn]
        ring
      rw [e0, ← hkQh]
    have hf2 : ⌊(s.length : ℚ) - 1 - h⌋ = ((s.length - 1 - k : ℕ) : ℤ) := by
      rw [e1, Int.floor_natCast]
    unfold interp
    rw [hkN, hf2, Int.toNat_natCast]
    have hfracL : h - ((k : ℕ) : ℚ) = 0 := by
      rw [hkQh]
      ring
    have hfracR : (s.length : ℚ) - 1 - h - ((s.length - 1 - k : ℕ) : ℚ) = 0 := by
      rw [← e1]
      ring
    rw [hfracL, hfracR, zero_mul, zero_mul, add_zero, add_zero]
    exact getD_reverse_map_neg s k 0 0 hklt
  · have hflt : ((⌊h⌋ : ℤ) : ℚ) < h := lt_of_le_of_ne hkle hf
    have hne : h ≠ (s.length : ℚ) - 1 := by
      intro he
      apply hf
      rw [he, ← hcast1, Int.floor_natCast]
      norm_cast
    have hlt2 : h < (s.length : ℚ) - 1 := lt_of_le_of_ne h1 hne
    have hkn2 : k ≤ s.length - 2 := by
      have h4 : ((k : ℕ) : ℚ) < ((s.length - 1 : ℕ) : ℚ) := by
        rw [hcast1, hkQ]
        exact hkle.trans_lt hlt2
      have h5 : k < s.length - 1 := by exact_mod_cast h4
      omega
    have hn2 : 2 ≤ s.length := by
      have h6 : (1 : ℚ) < (s.length : ℚ) := by linarith
      have h7 : 1 < s.length := by exact_mod_cast h6
      omega
    have hk1lt : k + 1 < s.length := by omega
    have e2 : (((s.length - 2 - k : ℕ) : ℤ) : ℚ) = (s.length : ℚ) - 2 - k := by
      push_cast [Nat.cast_sub hn2, Nat.cast_sub hkn2]
      ring
    have hkq1 : h < ((k : ℕ) : ℚ) + 1 := by
      rw [hkQ]
      exact hhlt
    have hkq2 : ((k : ℕ) : ℚ) < h := by
      rw [hkQ]
      exact hflt
    have hf2 : ⌊(s.length : ℚ) - 1 - h⌋ = ((s.length - 2 - k : ℕ) : ℤ) := by
      apply Int.floor_eq_iff.mpr
      constructor
      · rw [e2]
        linarith
      · rw [e2]
        linarith
    unfold interp
    rw [hkN, hf2, Int.toNat_natCast]
    have hidx1 : s.length - 1 - (k + 1) = s.length - 2 - k := by omega
    have hidx2 : s.length - 2 - k + 1 = s.length - 1 - k := by omega
    have hA : (s.reverse.map fun x => -x).getD k 0 = -(s.getD (s.length - 1 - k) 0) :=
      getD_reverse_map_neg s k 0 0 hklt
    have hB : (s.reverse.map fun x => -x).getD (k + 1)
        (-(s.getD (s.length - 1 - k) 0)) = -(s.getD (s.length - 2 - k) 0) := by
      rw [getD_reverse_map_neg s (k + 1) _ 0 hk1lt, hidx1]
    have hC : s.getD (s.length - 2 - k + 1) (s.getD (s.length - 2 - k) 0) =
        s.getD (s.length - 1 - k) 0 := by
      rw [hidx2]
      exact getD_def_irrel s _ _ 0 (by omega)
    rw [hA, hB, hC]
    have e3 : ((s.length - 2 - k : ℕ) : ℚ) = (s.length : ℚ) - 2 - k := by
      push_cast [Nat.cast_sub hn2, Nat.cast_sub hkn2]
      ring
    rw [e3]
    ring

theorem percentile_map_neg (q : ℚ) (l : List ℚ) (hq0 : 0 ≤ q) (hq1 : q ≤ 100) :
    percentile q (l.map fun x => -x) = -percentile (100 - q) l := by
  unfold percentile
  rw [List.length_map]
  by_cases hl : l.length = 0
  · rw [if_pos hl, if_pos hl]
    ring
  · rw [if_neg hl, if_neg hl, sort_map_neg]
    have hlen : (l.insertionSort (· ≤ ·)).length = l.length :=
      (List.perm_insertionSort _ l).length_eq
    have hn1 : 0 < l.length := Nat.pos_of_ne_zero hl
    have hL1 : (1 : ℚ) ≤ (l.length : ℚ) := by exact_mod_cast hn1
    have hq : q / 100 ≤ 1 := (div_le_one (by norm_num)).mpr hq1
    have hb0 : 0 ≤ q / 100 * ((l.length : ℚ) - 1) := by
      apply mul_nonneg (div_nonneg hq0 (by norm_num))
      linarith
    have hb1 : q / 100 * ((l.length : ℚ) - 1) ≤
        ((l.insertionSort (· ≤ ·)).length : ℚ) - 1 := by
      rw [hlen]
      exact mul_le_of_le_one_left (by linarith) hq
    rw [interp_reverse_neg _ _ hb0 hb1]
    have harg : ((l.insertionSort (· ≤ ·)).length : ℚ) - 1 -
        q / 100 * ((l.length : ℚ) - 1) = (100 - q) / 100 * ((l.length : ℚ) - 1) := by
      rw [hlen]
      ring
    rw [harg]

theorem spec_dvars_squared_eq (data : Arr4) :
    spec_dvars_squared data = dvars_squared data := by
  unfold spec_dvars_squared dvars_squared
  apply List.map_congr_left
  intro t _
  apply congrArg
  apply congrArg
  funext x y z
  show (data.val x y z (t + 1) - data.val x y z t) ^ 2 =
    (data.val x y z t - data.val x y z (t + 1)) ^ 2
  ring

/-- C4: the robust null mean `mu_0` returned by `null_distribution_mean`
equals the median, across all voxels, of the per-voxel interquartile range
`Q3 - Q1` of that voxel's `T - 1` difference values (in the specification's
`value(t+1) - value(t)` orientation), divided by the standard-normal
constant `IQR_0` (the parameter `iqr0`).  The interquartile range is
invariant under negating the series, so the sign discrepancy of the code's
difference engine (C1) does not reach `mu_0`. -/
theorem C4_null_mean (iqr0 : ℚ) (data : Arr4) :
    null_distribution_mean iqr0 data = spec_null_distribution_mean iqr0 data := by
  unfold null_distribution_mean spec_null_distribution_mean
  apply congrArg
  apply congrArg
  funext x y z
  have hser : spec_voxel_diff_series data x y z =
      (voxel_diff_series data x y z).map fun v => -v := by
    unfold spec_voxel_diff_series voxel_diff_series
    rw [List.map_map]
    apply List.map_congr_left
    intro t _
    show data.val x y z (t + 1) - data.val x y z t =
      -(data.val x y z t - data.val x y z (t + 1))
    ring
  show voxel_iqr_variance iqr0 data x y z = _
  unfold voxel_iqr_variance
  rw [hser, percentile_map_neg 75 _ (by norm_num) (by norm_num),
    percentile_map_neg 25 _ (by norm_num) (by norm_num)]
  norm_num
  ring

/-- C5: the robust null variance `variance_0` returned by
`null_distribution_variance` equals the half interquartile range
`median - Q1` of the squared-DVARS series — with the squared-DVARS series in
the specification's orientation, which coincides with the code's because the
differences are squared — divided by `hIQR_0 = IQR_0 / 2`. -/
theorem C5_null_variance (iqr0 : ℚ) (data : Arr4) :
    null_distribution_variance iqr0 data = spec_null_distribution_variance iqr0 data := by
  unfold null_distribution_variance spec_null_distribution_variance
  rw [spec_dvars_squared_eq]
